import Mathlib

/-! Shallow embedding of the stackmac toolchain: the stack-machine interpreter
(src/stack_machine.py), the opcode registry and extension loader
(src/opcodes_ext.py), the two-pass assembler and bytecode encoder
(src/stackc.py), and the bytecode decoder (stackr.py).

Conventions:
* Python integers are Lean `Int`; Python `None` on the value stack is `none`
  (a stack cell is `Option Int`, because `PUSH` with a missing operand pushes
  the Python value `None`).
* The top of the machine stack is the head of the list.
* Python exceptions are explicit error values (`PyErr`); a raised exception
  carries the machine state frozen at the raise point, as mutations made
  before the raise are committed.
* Byte strings are `List Nat`, one entry per byte.
-/

namespace StackMac

/-- Python exception classes raised by the interpreter and its extensions:
IndexError (stack underflow, peek on empty, bad program index),
ZeroDivisionError (DIV and MOD by zero), TypeError (arithmetic on None),
ValueError (unknown opcode). -/
inductive PyErr
  | indexError
  | zeroDivisionError
  | typeError
  | valueError
deriving DecidableEq, Repr

/-- OpcodeRegistry.BASE_OPCODES from src/opcodes_ext.py. -/
def BASE_OPCODES : List (String × Nat) :=
  [("PUSH", 0x01), ("POP", 0x02), ("ADD", 0x03), ("SUB", 0x04), ("MUL", 0x05),
   ("DIV", 0x06), ("DUP", 0x07), ("SWAP", 0x08), ("PRINT", 0x09), ("JUMP", 0x0A),
   ("JZ", 0x0B), ("HALT", 0xFF)]

/-- An extension module after attribute validation: OPCODE_NAME, OPCODE_VALUE,
HAS_OPERAND (the execute behavior of the shipped extensions is inlined into
`executeInstruction` below). -/
structure Extension where
  name : String
  value : Nat
  hasOperand : Bool
deriving DecidableEq, Repr

/-- The mutable state of OpcodeRegistry: `opcodes` (base entries followed by
accepted extensions, in registration order) and the accepted extensions. -/
structure OpcodeRegistry where
  opcodes : List (String × Nat)
  extensions : List Extension
deriving DecidableEq, Repr

/-- The conflict checks of OpcodeRegistry._load_extension_file, applied after
the attribute-validation steps succeed.  Returns the updated registry and
whether the extension was registered; a rejected attempt only prints a
warning and leaves the registry unchanged. -/
def loadExtensionFile (r : OpcodeRegistry) (e : Extension) :
    OpcodeRegistry × Bool :=
  if BASE_OPCODES.any (fun b => b.1 == e.name) then (r, false)
  else if BASE_OPCODES.any (fun b => b.2 == e.value) then (r, false)
  else if r.opcodes.any (fun b => b.1 == e.name) then (r, false)
  else ({ opcodes := r.opcodes ++ [(e.name, e.value)],
          extensions := r.extensions ++ [e] }, true)

/-- The registry as constructed before any extension file is loaded:
`self.opcodes = dict(self.BASE_OPCODES)`, `self.extensions = {}`. -/
def OpcodeRegistry.base : OpcodeRegistry := ⟨BASE_OPCODES, []⟩

/-- OpcodeRegistry._load_extensions over a list of extension declarations. -/
def loadExtensions (r : OpcodeRegistry) (es : List Extension) : OpcodeRegistry :=
  es.foldl (fun acc e => (loadExtensionFile acc e).1) r

/-- The extension files shipped in extensions/, listed by filename. -/
def shippedExtensions : List Extension :=
  [⟨"DEPTH", 0x18, false⟩, ⟨"EQ", 0x12, false⟩, ⟨"GT", 0x15, false⟩,
   ⟨"GTE", 0x17, false⟩, ⟨"LT", 0x14, false⟩, ⟨"LTE", 0x16, false⟩,
   ⟨"MOD", 0x10, false⟩, ⟨"NEG", 0x11, false⟩, ⟨"NEQ", 0x13, false⟩,
   ⟨"OVER", 0x19, false⟩, ⟨"PEEK", 0x1B, false⟩, ⟨"ROT", 0x1A, false⟩]

/-- get_registry(): the singleton registry built from the shipped extensions. -/
def theRegistry : OpcodeRegistry := loadExtensions .base shippedExtensions

/-- StackMachine.OPCODES, initialized from registry.get_opcodes(). -/
def OPCODES : List (String × Nat) := theRegistry.opcodes

/-- Lookup in an association list with string keys (a Python dict access). -/
def lookupName (tbl : List (String × Nat)) (n : String) : Option Nat :=
  (tbl.find? (fun e => e.1 == n)).map (fun e => e.2)

/-- The reverse mapping opcode number to name, built by the dict comprehension
of Runtime.__init__: on duplicate codes the last inserted entry wins. -/
def lookupCode (tbl : List (String × Nat)) (c : Nat) : Option String :=
  (tbl.reverse.find? (fun e => e.2 == c)).map (fun e => e.1)

/-- OpcodeRegistry.is_extension. -/
def OpcodeRegistry.isExtension (r : OpcodeRegistry) (n : String) : Bool :=
  r.extensions.any (fun e => e.name == n)

/-- OpcodeRegistry.has_operand: an extension answers with its HAS_OPERAND flag,
a base opcode by membership in the fixed list PUSH, JUMP, JZ. -/
def OpcodeRegistry.hasOperand (r : OpcodeRegistry) (n : String) : Bool :=
  match r.extensions.find? (fun e => e.name == n) with
  | some e => e.hasOperand
  | none => n == "PUSH" || n == "JUMP" || n == "JZ"

/-- The mutable fields of a StackMachine.  `output` records the values emitted
by PRINT, in order. -/
structure MachineSt where
  stack : List (Option Int)
  program : List (String × Option Int)
  pc : Int
  running : Bool
  instructionCount : Nat
  cycleCount : Nat
  output : List (Option Int)
deriving DecidableEq, Repr

/-- StackMachine.__init__. -/
def newMachine : MachineSt := ⟨[], [], 0, false, 0, 0, []⟩

/-- StackMachine.load_program: stores the program and resets pc.  It touches
no other field. -/
def loadProgram (s : MachineSt) (p : List (String × Option Int)) : MachineSt :=
  { s with program := p, pc := 0 }

/-- StackMachine.INSTRUCTION_COSTS. -/
def INSTRUCTION_COSTS : List (String × Nat) :=
  [("PUSH", 1), ("POP", 1), ("DUP", 1), ("SWAP", 1), ("ADD", 1), ("SUB", 1),
   ("MUL", 3), ("DIV", 10), ("JUMP", 2), ("JZ", 2), ("PRINT", 5), ("HALT", 1)]

/-- StackMachine.get_instruction_cost: the declared cost if known, otherwise 1
(extension opcodes and unknown opcodes both fall through to 1). -/
def getInstructionCost (opcode : String) : Nat :=
  match lookupName INSTRUCTION_COSTS opcode with
  | some c => c
  | none => 1

/-- Result of executing one instruction: the machine state, plus the exception
raised (if any), in which case the state is frozen at the raise point. -/
structure ExecOut where
  st : MachineSt
  err : Option PyErr
deriving DecidableEq, Repr

/-- StackMachine.execute_instruction, with the shipped extension behaviors
(dispatched in the source through registry.execute_extension) inlined.  The
counters are incremented before the dispatch, so they advance even when the
instruction subsequently raises.  Python `a // b` is `Int.fdiv`, `a % b` is
`Int.fmod` (both floor semantics). -/
def executeInstruction (s₀ : MachineSt) (opcode : String) (operand : Option Int) :
    ExecOut :=
  let s := { s₀ with instructionCount := s₀.instructionCount + 1,
                     cycleCount := s₀.cycleCount + getInstructionCost opcode }
  if opcode = "PUSH" then ⟨{ s with stack := operand :: s.stack }, none⟩
  else if opcode = "POP" then
    match s.stack with
    | [] => ⟨s, some .indexError⟩
    | _ :: t => ⟨{ s with stack := t }, none⟩
  else if opcode = "ADD" then
    match s.stack with
    | [] => ⟨s, some .indexError⟩
    | [_] => ⟨{ s with stack := [] }, some .indexError⟩
    | some b :: some a :: t => ⟨{ s with stack := some (a + b) :: t }, none⟩
    | _ :: _ :: t => ⟨{ s with stack := t }, some .typeError⟩
  else if opcode = "SUB" then
    match s.stack with
    | [] => ⟨s, some .indexError⟩
    | [_] => ⟨{ s with stack := [] }, some .indexError⟩
    | some b :: some a :: t => ⟨{ s with stack := some (a - b) :: t }, none⟩
    | _ :: _ :: t => ⟨{ s with stack := t }, some .typeError⟩
  else if opcode = "MUL" then
    match s.stack with
    | [] => ⟨s, some .indexError⟩
    | [_] => ⟨{ s with stack := [] }, some .indexError⟩
    | some b :: some a :: t => ⟨{ s with stack := some (a * b) :: t }, none⟩
    | _ :: _ :: t => ⟨{ s with stack := t }, some .typeError⟩
  else if opcode = "DIV" then
    match s.stack with
    | [] => ⟨s, some .indexError⟩
    | [_] => ⟨{ s with stack := [] }, some .indexError⟩
    | b :: a :: t =>
      if b = some 0 then ⟨{ s with stack := t }, some .zeroDivisionError⟩
      else
        match b, a with
        | some bv, some av => ⟨{ s with stack := some (Int.fdiv av bv) :: t }, none⟩
        | _, _ => ⟨{ s with stack := t }, some .typeError⟩
  else if opcode = "DUP" then
    match s.stack with
    | [] => ⟨s, some .indexError⟩
    | v :: t => ⟨{ s with stack := v :: v :: t }, none⟩
  else if opcode = "SWAP" then
    match s.stack with
    | [] => ⟨s, some .indexError⟩
    | [_] => ⟨{ s with stack := [] }, some .indexError⟩
    | b :: a :: t => ⟨{ s with stack := a :: b :: t }, none⟩
  else if opcode = "PRINT" then
    match s.stack with
    | [] => ⟨s, some .indexError⟩
    | v :: t => ⟨{ s with stack := t, output := s.output ++ [v] }, none⟩
  else if opcode = "JUMP" then
    match operand with
    | some tgt => ⟨{ s with pc := tgt - 1 }, none⟩
    | none => ⟨s, some .typeError⟩
  else if opcode = "JZ" then
    match s.stack with
    | [] => ⟨s, some .indexError⟩
    | v :: t =>
      if v = some 0 then
        match operand with
        | some tgt => ⟨{ s with stack := t, pc := tgt - 1 }, none⟩
        | none => ⟨{ s with stack := t }, some .typeError⟩
      else ⟨{ s with stack := t }, none⟩
  else if opcode = "HALT" then ⟨{ s with running := false }, none⟩
  else if opcode = "MOD" then
    match s.stack with
    | [] => ⟨s, some .indexError⟩
    | [_] => ⟨{ s with stack := [] }, some .indexError⟩
    | b :: a :: t =>
      if b = some 0 then ⟨{ s with stack := t }, some .zeroDivisionError⟩
      else
        match b, a with
        | some bv, some av => ⟨{ s with stack := some (Int.fmod av bv) :: t }, none⟩
        | _, _ => ⟨{ s with stack := t }, some .typeError⟩
  else if opcode = "NEG" then
    match s.stack with
    | [] => ⟨s, some .indexError⟩
    | some v :: t => ⟨{ s with stack := some (-v) :: t }, none⟩
    | _ :: t => ⟨{ s with stack := t }, some .typeError⟩
  else if opcode = "EQ" then
    match s.stack with
    | [] => ⟨s, some .indexError⟩
    | [_] => ⟨{ s with stack := [] }, some .indexError⟩
    | b :: a :: t => ⟨{ s with stack := some (if a = b then 1 else 0) :: t }, none⟩
  else if opcode = "NEQ" then
    match s.stack with
    | [] => ⟨s, some .indexError⟩
    | [_] => ⟨{ s with stack := [] }, some .indexError⟩
    | b :: a :: t => ⟨{ s with stack := some (if a ≠ b then 1 else 0) :: t }, none⟩
  else if opcode = "LT" then
    match s.stack with
    | [] => ⟨s, some .indexError⟩
    | [_] => ⟨{ s with stack := [] }, some .indexError⟩
    | some b :: some a :: t =>
        ⟨{ s with stack := some (if a < b then 1 else 0) :: t }, none⟩
    | _ :: _ :: t => ⟨{ s with stack := t }, some .typeError⟩
  else if opcode = "LTE" then
    match s.stack with
    | [] => ⟨s, some .indexError⟩
    | [_] => ⟨{ s with stack := [] }, some .indexError⟩
    | some b :: some a :: t =>
        ⟨{ s with stack := some (if a ≤ b then 1 else 0) :: t }, none⟩
    | _ :: _ :: t => ⟨{ s with stack := t }, some .typeError⟩
  else if opcode = "GT" then
    match s.stack with
    | [] => ⟨s, some .indexError⟩
    | [_] => ⟨{ s with stack := [] }, some .indexError⟩
    | some b :: some a :: t =>
        ⟨{ s with stack := some (if a > b then 1 else 0) :: t }, none⟩
    | _ :: _ :: t => ⟨{ s with stack := t }, some .typeError⟩
  else if opcode = "GTE" then
    match s.stack with
    | [] => ⟨s, some .indexError⟩
    | [_] => ⟨{ s with stack := [] }, some .indexError⟩
    | some b :: some a :: t =>
        ⟨{ s with stack := some (if a ≥ b then 1 else 0) :: t }, none⟩
    | _ :: _ :: t => ⟨{ s with stack := t }, some .typeError⟩
  else if opcode = "DEPTH" then
    ⟨{ s with stack := some (s.stack.length : Int) :: s.stack }, none⟩
  else if opcode = "OVER" then
    match s.stack with
    | b :: a :: t => ⟨{ s with stack := a :: b :: a :: t }, none⟩
    | _ => ⟨s, some .indexError⟩
  else if opcode = "PEEK" then
    match s.stack with
    | [] => ⟨s, some .indexError⟩
    | _ :: _ => ⟨s, none⟩
  else if opcode = "ROT" then
    match s.stack with
    | c :: b :: a :: t => ⟨{ s with stack := a :: c :: b :: t }, none⟩
    | _ => ⟨s, some .indexError⟩
  else ⟨s, some .valueError⟩

/-- Python list indexing `program[pc]`: a negative index addresses from the
end of the list; an index that is still out of range raises IndexError
(modelled as `none`). -/
def pyIndex {α : Type} (xs : List α) (i : Int) : Option α :=
  let j : Int := if i < 0 then i + (xs.length : Int) else i
  if 0 ≤ j then xs.get? j.toNat else none

/-- Outcome of one iteration of the while loop of StackMachine.execute:
the loop condition failed (`stopped`), one instruction was executed and the
loop continues (`stepped`), or an exception propagated (`crashed`). -/
inductive StepResult
  | stopped (s : MachineSt)
  | stepped (s : MachineSt)
  | crashed (s : MachineSt) (e : PyErr)
deriving DecidableEq, Repr

/-- One iteration of `while self.running and self.pc < len(self.program)`:
fetch program[pc], execute it, then advance pc by one if still running. -/
def step (s : MachineSt) : StepResult :=
  if s.running = false ∨ (s.program.length : Int) ≤ s.pc then .stopped s
  else
    match pyIndex s.program s.pc with
    | none => .crashed s .indexError
    | some (opcode, operand) =>
      let r := executeInstruction s opcode operand
      match r.err with
      | some e => .crashed r.st e
      | none =>
        .stepped (if r.st.running then { r.st with pc := r.st.pc + 1 } else r.st)

/-- The initialization performed at the top of StackMachine.execute, before
the loop: running := True, pc := 0, both counters := 0. -/
def initExecute (s : MachineSt) : MachineSt :=
  { s with running := true, pc := 0, instructionCount := 0, cycleCount := 0 }

/-- Run up to `n` loop iterations; returns `stepped` of the current state when
fuel runs out with the loop still live. -/
def runFor (n : Nat) (s : MachineSt) : StepResult :=
  match n with
  | 0 => .stepped s
  | Nat.succ m =>
    match step s with
    | .stepped s' => runFor m s'
    | r => r

/-- ASCII whitespace, as stripped by Python str.strip / str.split. -/
def isSpaceChar (c : Char) : Bool :=
  c = ' ' || c = '\t' || c = '\n' || c = '\r'

/-- Python str.strip on a character list. -/
def pyStrip (cs : List Char) : List Char :=
  ((cs.dropWhile isSpaceChar).reverse.dropWhile isSpaceChar).reverse

/-- Python str.upper on an ASCII character. -/
def pyUpperChar (c : Char) : Char :=
  if 'a' ≤ c ∧ c ≤ 'z' then Char.ofNat (c.toNat - 32) else c

/-- The value of a nonempty all-digit character list. -/
def digitsVal (cs : List Char) : Option Nat :=
  if cs ≠ [] ∧ cs.all Char.isDigit then
    some (cs.foldl (fun acc c => acc * 10 + (c.toNat - 48)) 0)
  else none

/-- Python int(str) on decimal literals: strips whitespace, then an optional
single sign followed by digits (numeric-literal underscores and non-ASCII
digits are not modelled; no source file or theorem input uses them). -/
def pyInt? (cs : List Char) : Option Int :=
  let cs := pyStrip cs
  match cs with
  | '-' :: rest => (digitsVal rest).map (fun n => -(n : Int))
  | '+' :: rest => (digitsVal rest).map (fun n => (n : Int))
  | _ => (digitsVal cs).map (fun n => (n : Int))

/-- Python operand_raw.lstrip(Char.ofNat 45).isdigit(): the test stackc uses to
decide that a JUMP or JZ operand token is a number rather than a label. -/
def lstripMinusIsDigit (cs : List Char) : Bool :=
  let t := cs.dropWhile (fun c => c = '-')
  !t.isEmpty && t.all Char.isDigit

/-- The classification stored for each source line by pass 1 of
LabelAwareProgramParser.parse_file (the raw_lines entries). -/
inductive RawKind
  | blank
  | label (name : String)
  | instr (opcode : String) (operandRaw : Option String)
deriving DecidableEq, Repr

/-- One raw_lines entry: line number (1-based) and classification. -/
structure RawLine where
  lineNum : Nat
  kind : RawKind
deriving DecidableEq, Repr

/-- The ValueError variants LabelAwareProgramParser.parse_file can raise,
distinguished by their message. -/
inductive ParseErr
  | emptyLabelName (lineNum : Nat)
  | duplicateLabel (lineNum : Nat) (name : String)
  | unknownOpcode (lineNum : Nat) (name : String)
  | undefinedLabel (lineNum : Nat) (name : String)
  | invalidOperand (lineNum : Nat) (raw : String)
deriving DecidableEq, Repr

/-- The accumulator of pass 1: the label table, the raw lines, and the current
emission address. -/
structure Pass1St where
  labels : List (String × Nat)
  rawLines : List RawLine
  address : Nat
deriving DecidableEq, Repr

/-- The label-declaration branch of pass 1 (a line ending in a colon), taking
the already-extracted name `line[:-1].strip()`.  Labels do not consume an
address. -/
def declareLabel (st : Pass1St) (lineNum : Nat) (name : String) :
    Except ParseErr Pass1St :=
  if name = "" then .error (.emptyLabelName lineNum)
  else if st.labels.any (fun e => e.1 == name) then
    .error (.duplicateLabel lineNum name)
  else
    .ok { st with labels := st.labels ++ [(name, st.address)],
                  rawLines := st.rawLines ++ [⟨lineNum, .label name⟩] }

/-- Pass 1 of LabelAwareProgramParser.parse_file on a single line: strip,
skip blanks and comment lines, strip inline comments, handle label lines,
otherwise split into mnemonic and optional raw operand and validate the
mnemonic against the registry. -/
def pass1Line (st : Pass1St) (lineNum : Nat) (line : String) :
    Except ParseErr Pass1St :=
  let l := pyStrip line.data
  if l.isEmpty || l.headD ' ' = '#' then
    .ok { st with rawLines := st.rawLines ++ [⟨lineNum, .blank⟩] }
  else
    let l := if l.contains '#' then pyStrip (l.takeWhile (fun c => c ≠ '#')) else l
    if l.contains ':' && l.getLast? = some ':' then
      declareLabel st lineNum (String.mk (pyStrip l.dropLast))
    else
      let tok := l.takeWhile (fun c => !isSpaceChar c)
      let rest := (l.dropWhile (fun c => !isSpaceChar c)).dropWhile isSpaceChar
      if tok.isEmpty then
        .ok { st with rawLines := st.rawLines ++ [⟨lineNum, .blank⟩] }
      else
        let opcode := String.mk (tok.map pyUpperChar)
        if (lookupName OPCODES opcode).isSome = false then
          .error (.unknownOpcode lineNum opcode)
        else
          let operandRaw := if rest.isEmpty then none
                            else some (String.mk (pyStrip rest))
          .ok { st with
                rawLines := st.rawLines ++ [⟨lineNum, .instr opcode operandRaw⟩],
                address := st.address + 1 }

/-- Fold of pass 1 over the numbered source lines. -/
def pass1Aux : Pass1St → Nat → List String → Except ParseErr Pass1St
  | st, _, [] => .ok st
  | st, n, l :: rest =>
    match pass1Line st n l with
    | .error e => .error e
    | .ok st' => pass1Aux st' (n + 1) rest

/-- Pass 1 over a whole source file (line numbers start at 1). -/
def pass1 (lines : List String) : Except ParseErr Pass1St :=
  pass1Aux ⟨[], [], 0⟩ 1 lines

/-- Pass 2 on one raw line: resolve a JUMP/JZ operand token that is not a
signed digit string as a label, otherwise parse it as an integer. -/
def pass2Line (labels : List (String × Nat)) (rl : RawLine) :
    Except ParseErr (Option (String × Option Int)) :=
  match rl.kind with
  | .blank => .ok none
  | .label _ => .ok none
  | .instr opcode operandRaw =>
    match operandRaw with
    | none => .ok (some (opcode, none))
    | some raw =>
      if (opcode = "JUMP" ∨ opcode = "JZ") ∧ lstripMinusIsDigit raw.data = false then
        match labels.find? (fun e => e.1 == raw) with
        | none => .error (.undefinedLabel rl.lineNum raw)
        | some e => .ok (some (opcode, some (e.2 : Int)))
      else
        match pyInt? raw.data with
        | none => .error (.invalidOperand rl.lineNum raw)
        | some v => .ok (some (opcode, some v))

/-- Pass 2 over the raw lines, collecting the emitted instructions. -/
def pass2 (labels : List (String × Nat)) :
    List RawLine → Except ParseErr (List (String × Option Int))
  | [] => .ok []
  | rl :: rest =>
    match pass2Line labels rl with
    | .error e => .error e
    | .ok none => pass2 labels rest
    | .ok (some i) =>
      match pass2 labels rest with
      | .error e => .error e
      | .ok p => .ok (i :: p)

/-- LabelAwareProgramParser.parse_file on the source lines (file access
abstracted away). -/
def parseFile (lines : List String) :
    Except ParseErr (List (String × Option Int)) :=
  match pass1 lines with
  | .error e => .error e
  | .ok st => pass2 st.labels st.rawLines

/-- Compiler.MAGIC, the byte literal STKM. -/
def MAGIC : List Nat := [0x53, 0x54, 0x4B, 0x4D]

/-- Compiler.VERSION / Runtime.VERSION. -/
def VERSION : Nat := 1

/-- The four little-endian bytes of a value below 2 to the 32. -/
def u32bytes (n : Nat) : List Nat :=
  [n % 256, n / 256 % 256, n / 65536 % 256, n / 16777216 % 256]

/-- struct.pack of an unsigned 32-bit little-endian value; fails (struct.error)
out of range. -/
def packU32? (n : Nat) : Option (List Nat) :=
  if n < 4294967296 then some (u32bytes n) else none

/-- struct.pack of a signed 32-bit little-endian value; fails (struct.error)
out of range. -/
def packI32? (v : Int) : Option (List Nat) :=
  if -2147483648 ≤ v ∧ v < 2147483648 then
    some (u32bytes (v % 4294967296).toNat)
  else none

/-- The value of a little-endian byte list. -/
def leNat : List Nat → Nat
  | [] => 0
  | b :: rest => b + 256 * leNat rest

/-- struct.unpack of a signed 32-bit little-endian value. -/
def unpackI32 (bs : List Nat) : Int :=
  let u := leNat bs
  if u < 2147483648 then (u : Int) else (u : Int) - 4294967296

/-- One 5-byte record of Compiler.compile: the numeric opcode from the
registry table (1 byte) and the operand, 0 when absent (4 bytes LE signed). -/
def encodeInstruction? (i : String × Option Int) : Option (List Nat) :=
  match lookupName OPCODES i.1 with
  | none => none
  | some code =>
    if code < 256 then (packI32? (i.2.getD 0)).map (fun ob => code :: ob)
    else none

/-- The instruction records of Compiler.compile, concatenated. -/
def encodeRecords? : List (String × Option Int) → Option (List Nat)
  | [] => some []
  | i :: rest =>
    match encodeInstruction? i, encodeRecords? rest with
    | some r, some rs => some (r ++ rs)
    | _, _ => none

/-- The byte output of Compiler.compile: MAGIC, version byte, instruction
count (uint32 LE), then the records. -/
def encodeProgram? (p : List (String × Option Int)) : Option (List Nat) :=
  match packU32? p.length, encodeRecords? p with
  | some cnt, some recs => some (MAGIC ++ [VERSION] ++ cnt ++ recs)
  | _, _ => none

/-- Compiler.compile end to end: assemble the source lines, then encode. -/
def compile (lines : List String) : Except ParseErr (Option (List Nat)) :=
  match parseFile lines with
  | .error e => .error e
  | .ok p => .ok (encodeProgram? p)

/-- The failures of Runtime.load: bad magic, unsupported version and unknown
opcode number are ValueError; structError models struct.error on a short
read. -/
inductive LoadErr
  | badMagic
  | unsupportedVersion
  | unknownOpcodeNumber (n : Nat)
  | structError
deriving DecidableEq, Repr

/-- The operand reconstruction of Runtime.load (and Disassembler.load_bytecode):
store None when the value is 0 and the opcode is not in the FIXED list PUSH,
JUMP, JZ.  The registry operand-bearing flag is not consulted. -/
def decodeOperand (opcodeStr : String) (v : Int) : Option Int :=
  if v = 0 ∧ opcodeStr ∉ (["PUSH", "JUMP", "JZ"] : List String) then none
  else some v

/-- Modelled from the spec (section 4.5, decode): the operand-reconstruction
rule as the spec words it, reading the operand-bearing flag from the registry.
Stated only to compare against `decodeOperand`, the rule the code implements. -/
def specOperandRule (r : OpcodeRegistry) (opcodeStr : String) (v : Int) :
    Option Int :=
  if v = 0 ∧ r.hasOperand opcodeStr = false then none else some v

/-- The record-reading loop of Runtime.load: reads 5 bytes per declared
record (short read is a struct.error), maps the numeric opcode through the
reverse table, reconstructs the operand. -/
def decodeRecords (tbl : List (String × Nat)) :
    List Nat → Nat → Except LoadErr (List (String × Option Int))
  | _, 0 => .ok []
  | bs, Nat.succ m =>
    match bs with
    | [] => .error .structError
    | code :: rest =>
      if (rest.take 4).length < 4 then .error .structError
      else
        let v := unpackI32 (rest.take 4)
        match lookupCode tbl code with
        | none => .error (.unknownOpcodeNumber code)
        | some name =>
          match decodeRecords tbl (rest.drop 4) m with
          | .error e => .error e
          | .ok p => .ok ((name, decodeOperand name v) :: p)

/-- Runtime.load on a byte string (file reading abstracted away),
parameterized by the opcode table of the ambient registry.  Bytes after the
declared records are never read. -/
def loadWith (tbl : List (String × Nat)) (bs : List Nat) :
    Except LoadErr (List (String × Option Int)) :=
  if bs.take 4 ≠ MAGIC then .error .badMagic
  else
    match bs.drop 4 with
    | [] => .error .structError
    | ver :: rest =>
      if ver ≠ VERSION then .error .unsupportedVersion
      else if (rest.take 4).length < 4 then .error .structError
      else decodeRecords tbl (rest.drop 4) (leNat (rest.take 4))

/-- Runtime.load with the opcode table of the process registry. -/
def load (bs : List Nat) : Except LoadErr (List (String × Option Int)) :=
  loadWith OPCODES bs

/-- The pc stored in the machine state after one loop iteration, when the
iteration completed normally. -/
def stepPc (r : StepResult) : Option Int :=
  match r with
  | .stepped s => some s.pc
  | _ => none

/-! Helper lemmas about the byte-level codecs. -/

theorem leNat_u32bytes (n : Nat) (h : n < 4294967296) :
    leNat (u32bytes n) = n := by
  simp only [u32bytes, leNat]
  omega

theorem u32bytes_mem_lt (n : Nat) : ∀ b ∈ u32bytes n, b < 256 := by
  intro b hb
  simp only [u32bytes, List.mem_cons, List.not_mem_nil, or_false] at hb
  rcases hb with rfl | rfl | rfl | rfl <;> omega

theorem u32bytes_length (n : Nat) : (u32bytes n).length = 4 := rfl

theorem u32bytes_leNat4 (b0 b1 b2 b3 : Nat)
    (h0 : b0 < 256) (h1 : b1 < 256) (h2 : b2 < 256) (h3 : b3 < 256) :
    u32bytes (leNat [b0, b1, b2, b3]) = [b0, b1, b2, b3] ∧
    leNat [b0, b1, b2, b3] < 4294967296 := by
  simp only [u32bytes, leNat, List.cons.injEq, and_true]
  refine ⟨⟨?_, ?_, ?_, ?_⟩, ?_⟩ <;> omega

theorem packU32_leNat (bs : List Nat) (hlen : bs.length = 4)
    (hlt : ∀ b ∈ bs, b < 256) : packU32? (leNat bs) = some bs := by
  match bs, hlen with
  | [b0, b1, b2, b3], _ =>
    have h0 : b0 < 256 := hlt _ (by simp)
    have h1 : b1 < 256 := hlt _ (by simp)
    have h2 : b2 < 256 := hlt _ (by simp)
    have h3 : b3 < 256 := hlt _ (by simp)
    obtain ⟨heq, hlt32⟩ := u32bytes_leNat4 b0 b1 b2 b3 h0 h1 h2 h3
    simp only [packU32?, if_pos hlt32, heq]

theorem packI32_unpackI32 (bs : List Nat) (hlen : bs.length = 4)
    (hlt : ∀ b ∈ bs, b < 256) : packI32? (unpackI32 bs) = some bs := by
  match bs, hlen with
  | [b0, b1, b2, b3], _ =>
    have h0 : b0 < 256 := hlt _ (by simp)
    have h1 : b1 < 256 := hlt _ (by simp)
    have h2 : b2 < 256 := hlt _ (by simp)
    have h3 : b3 < 256 := hlt _ (by simp)
    obtain ⟨heq, hlt32⟩ := u32bytes_leNat4 b0 b1 b2 b3 h0 h1 h2 h3
    set u := leNat [b0, b1, b2, b3] with hu
    unfold unpackI32 packI32?
    rw [← hu]
    by_cases hsmall : u < 2147483648
    · rw [if_pos hsmall]
      have hrange : -2147483648 ≤ (u : Int) ∧ (u : Int) < 2147483648 := by omega
      rw [if_pos hrange]
      have hmod : (((u : Int)) % 4294967296).toNat = u := by omega
      rw [hmod, heq]
    · rw [if_neg hsmall]
      have hrange : -2147483648 ≤ (u : Int) - 4294967296 ∧
          (u : Int) - 4294967296 < 2147483648 := by omega
      rw [if_pos hrange]
      have hmod : (((u : Int) - 4294967296) % 4294967296).toNat = u := by omega
      rw [hmod, heq]

theorem unpackI32_packI32 (v : Int)
    (hlo : -2147483648 ≤ v) (hhi : v < 2147483648) :
    ∃ bs, packI32? v = some bs ∧ bs.length = 4 ∧ (∀ b ∈ bs, b < 256) ∧
      unpackI32 bs = v := by
  refine ⟨u32bytes (v % 4294967296).toNat, ?_, rfl, u32bytes_mem_lt _, ?_⟩
  · unfold packI32?
    rw [if_pos ⟨hlo, hhi⟩]
  · set u := (v % 4294967296).toNat with hu
    have hub : u < 4294967296 := by omega
    unfold unpackI32
    rw [leNat_u32bytes u hub]
    by_cases hv : 0 ≤ v
    · have : u = v.toNat := by omega
      rw [if_pos (by omega)]
      omega
    · rw [if_neg (by omega)]
      omega

/-! Helper lemmas about association-list lookup on the opcode table. -/

theorem find?_append_some {α : Type} (p : α → Bool) {l1 : List α}
    (l2 : List α) {a : α} (h : l1.find? p = some a) :
    (l1 ++ l2).find? p = some a := by
  induction l1 with
  | nil => simp at h
  | cons x xs ih =>
    rw [List.find?_cons] at h
    rw [List.cons_append, List.find?_cons]
    cases hp : p x with
    | true => simpa [hp] using h
    | false =>
      rw [hp] at h
      simpa [hp] using ih h

theorem find?_append_none {α : Type} (p : α → Bool) {l1 : List α}
    (l2 : List α) (h : l1.find? p = none) :
    (l1 ++ l2).find? p = l2.find? p := by
  induction l1 with
  | nil => simp
  | cons x xs ih =>
    rw [List.find?_cons] at h
    rw [List.cons_append, List.find?_cons]
    cases hp : p x with
    | true => rw [hp] at h; exact absurd h (by simp)
    | false =>
      rw [hp] at h
      simpa [hp] using ih h

theorem mem_of_lookupName {tbl : List (String × Nat)} {name : String}
    {code : Nat} (h : lookupName tbl name = some code) : (name, code) ∈ tbl := by
  unfold lookupName at h
  cases hf : tbl.find? (fun e => e.1 == name) with
  | none => rw [hf] at h; simp at h
  | some e =>
    rw [hf] at h
    have hkey := List.find?_some hf
    have hmem : e ∈ tbl := List.mem_of_find?_eq_some hf
    have : e = (name, code) := by
      obtain ⟨k, v⟩ := e
      simp only [beq_iff_eq] at hkey
      simp only [Option.map_some', Option.some.injEq] at h
      simp only [Prod.mk.injEq]
      exact ⟨hkey, h⟩
    rwa [this] at hmem

theorem lookup_inverse (tbl : List (String × Nat))
    (hv : (tbl.map Prod.snd).Nodup) (name : String) (code : Nat)
    (h : lookupName tbl name = some code) : lookupCode tbl code = some name := by
  induction tbl with
  | nil => simp [lookupName] at h
  | cons e rest ih =>
    obtain ⟨k, v⟩ := e
    rw [List.map_cons, List.nodup_cons] at hv
    obtain ⟨hvhead, hvtail⟩ := hv
    unfold lookupName at h
    rw [List.find?_cons] at h
    by_cases hek : (k == name) = true
    · rw [hek] at h
      have hkname : k = name := by simpa using hek
      have hvc : v = code := by
        simpa using h
      unfold lookupCode
      rw [List.reverse_cons]
      have hnone : rest.reverse.find? (fun x => x.2 == code) = none := by
        rw [List.find?_eq_none]
        intro x hx
        simp only [beq_iff_eq]
        intro hxc
        apply hvhead
        show v ∈ List.map Prod.snd rest
        rw [hvc, ← hxc]
        exact List.mem_map_of_mem Prod.snd (List.mem_reverse.mp hx)
      rw [find?_append_none _ _ hnone]
      simp [List.find?_cons, hkname, hvc]
    · simp only [Bool.not_eq_true] at hek
      rw [hek] at h
      have hrest := ih hvtail h
      unfold lookupCode at hrest ⊢
      rw [List.reverse_cons]
      cases hf : rest.reverse.find? (fun x => x.2 == code) with
      | none => rw [hf] at hrest; simp at hrest
      | some e' =>
        rw [hf] at hrest
        rw [find?_append_some _ _ hf]
        exact hrest

/-- The fully-evaluated opcode table of the process registry. -/
theorem OPCODES_eq : OPCODES =
    [("PUSH", 1), ("POP", 2), ("ADD", 3), ("SUB", 4), ("MUL", 5), ("DIV", 6),
     ("DUP", 7), ("SWAP", 8), ("PRINT", 9), ("JUMP", 10), ("JZ", 11),
     ("HALT", 255), ("DEPTH", 24), ("EQ", 18), ("GT", 21), ("GTE", 23),
     ("LT", 20), ("LTE", 22), ("MOD", 16), ("NEG", 17), ("NEQ", 19),
     ("OVER", 25), ("PEEK", 27), ("ROT", 26)] := by decide

theorem OPCODES_values_nodup : (OPCODES.map Prod.snd).Nodup := by decide

theorem OPCODES_codes_lt (e : String × Nat) (he : e ∈ OPCODES) : e.2 < 256 := by
  rw [OPCODES_eq] at he
  fin_cases he <;> decide

theorem lookupName_lt_256 {name : String} {code : Nat}
    (h : lookupName OPCODES name = some code) : code < 256 :=
  OPCODES_codes_lt (name, code) (mem_of_lookupName h)

theorem OPCODES_lookup_inverse {name : String} {code : Nat}
    (h : lookupName OPCODES name = some code) :
    lookupCode OPCODES code = some name :=
  lookup_inverse OPCODES OPCODES_values_nodup name code h

instance {ε α : Type} [DecidableEq ε] [DecidableEq α] :
    DecidableEq (Except ε α) := fun a b =>
  match a, b with
  | .error x, .error y =>
    if h : x = y then isTrue (by rw [h])
    else isFalse (by intro hc; injection hc; contradiction)
  | .error _, .ok _ => isFalse (by intro hc; exact Except.noConfusion hc)
  | .ok _, .error _ => isFalse (by intro hc; exact Except.noConfusion hc)
  | .ok x, .ok y =>
    if h : x = y then isTrue (by rw [h])
    else isFalse (by intro hc; injection hc; contradiction)

theorem lookupCode_mem {tbl : List (String × Nat)} {code : Nat}
    {name : String} (h : lookupCode tbl code = some name) :
    (name, code) ∈ tbl := by
  unfold lookupCode at h
  cases hf : tbl.reverse.find? (fun x => x.2 == code) with
  | none => rw [hf] at h; simp at h
  | some e =>
    rw [hf] at h
    have hkey := List.find?_some hf
    have hmem : e ∈ tbl := List.mem_reverse.mp (List.mem_of_find?_eq_some hf)
    have : e = (name, code) := by
      obtain ⟨k, v⟩ := e
      simp only [beq_iff_eq] at hkey
      simp only [Option.map_some', Option.some.injEq] at h
      simp only [Prod.mk.injEq]
      exact ⟨h, hkey⟩
    rwa [this] at hmem

theorem lookupName_of_mem (tbl : List (String × Nat))
    (hk : (tbl.map Prod.fst).Nodup) {name : String} {code : Nat}
    (hmem : (name, code) ∈ tbl) : lookupName tbl name = some code := by
  induction tbl with
  | nil => simp at hmem
  | cons e rest ih =>
    obtain ⟨k, v⟩ := e
    rw [List.map_cons, List.nodup_cons] at hk
    obtain ⟨hkhead, hktail⟩ := hk
    rw [List.mem_cons] at hmem
    unfold lookupName
    rw [List.find?_cons]
    by_cases hek : (k == name) = true
    · have hkname : k = name := by simpa using hek
      rw [hek]
      rcases hmem with heq | hrest
      · simp only [Prod.mk.injEq] at heq
        simp [heq.2]
      · exfalso
        apply hkhead
        show k ∈ List.map Prod.fst rest
        rw [hkname]
        exact List.mem_map_of_mem Prod.fst hrest
    · simp only [Bool.not_eq_true] at hek
      rw [hek]
      rcases hmem with heq | hrest
      · exfalso
        simp only [Prod.mk.injEq] at heq
        rw [heq.1] at hek
        simp at hek
      · exact ih hktail hrest

theorem OPCODES_keys_nodup : (OPCODES.map Prod.fst).Nodup := by decide

theorem OPCODES_lookup_of_code {code : Nat} {name : String}
    (h : lookupCode OPCODES code = some name) :
    lookupName OPCODES name = some code :=
  lookupName_of_mem OPCODES OPCODES_keys_nodup (lookupCode_mem h)

/-- Each decoded record contributes exactly one instruction. -/
theorem decodeRecords_length (n : Nat) :
    ∀ (bs : List Nat) (p : List (String × Option Int)),
      decodeRecords OPCODES bs n = .ok p → p.length = n := by
  induction n with
  | zero =>
    intro bs p h
    simp only [decodeRecords] at h
    cases h
    rfl
  | succ m ih =>
    intro bs p h
    cases bs with
    | nil => simp [decodeRecords] at h
    | cons code rest =>
      simp only [decodeRecords] at h
      by_cases h4 : (rest.take 4).length < 4
      · rw [if_pos h4] at h; cases h
      · rw [if_neg h4] at h
        cases hlc : lookupCode OPCODES code with
        | none => rw [hlc] at h; cases h
        | some name =>
          rw [hlc] at h
          cases hrec : decodeRecords OPCODES (rest.drop 4) m with
          | error e => rw [hrec] at h; cases h
          | ok p' =>
            rw [hrec] at h
            cases h
            simp [ih _ p' hrec]

/-- Re-encoding inverts the record-reading loop on byte lists of exactly the
declared length. -/
theorem decodeRecords_encode (n : Nat) :
    ∀ (bs : List Nat) (p : List (String × Option Int)),
      decodeRecords OPCODES bs n = .ok p → (∀ b ∈ bs, b < 256) →
      bs.length = 5 * n → encodeRecords? p = some bs := by
  induction n with
  | zero =>
    intro bs p h hb hlen
    have hnil : bs = [] := List.length_eq_zero.mp (by omega)
    subst hnil
    simp only [decodeRecords] at h
    cases h
    rfl
  | succ m ih =>
    intro bs p h hb hlen
    cases bs with
    | nil => simp at hlen
    | cons code rest =>
      have hrl : rest.length = 5 * m + 4 := by
        simp only [List.length_cons] at hlen
        omega
      simp only [decodeRecords] at h
      have h4 : ¬((rest.take 4).length < 4) := by
        simp only [List.length_take]
        omega
      rw [if_neg h4] at h
      cases hlc : lookupCode OPCODES code with
      | none => rw [hlc] at h; cases h
      | some name =>
        rw [hlc] at h
        cases hrec : decodeRecords OPCODES (rest.drop 4) m with
        | error e => rw [hrec] at h; cases h
        | ok p' =>
          rw [hrec] at h
          cases h
          have hln : lookupName OPCODES name = some code :=
            OPCODES_lookup_of_code hlc
          have hcode : code < 256 := hb code (List.mem_cons_self _ _)
          have hb4 : ∀ b ∈ rest.take 4, b < 256 := fun b hbb =>
            hb b (List.mem_cons_of_mem _ (List.take_subset _ _ hbb))
          have hlen4 : (rest.take 4).length = 4 := by
            simp only [List.length_take]
            omega
          have hpack : packI32? (unpackI32 (rest.take 4)) = some (rest.take 4) :=
            packI32_unpackI32 _ hlen4 hb4
          have hget : (decodeOperand name (unpackI32 (rest.take 4))).getD 0 =
              unpackI32 (rest.take 4) := by
            unfold decodeOperand
            split_ifs with hsp
            · simp [hsp.1]
            · rfl
          have henc' : encodeRecords? p' = some (rest.drop 4) :=
            ih (rest.drop 4) p' hrec
              (fun b hbb => hb b (List.mem_cons_of_mem _ (List.drop_subset _ _ hbb)))
              (by simp only [List.length_drop]; omega)
          simp only [encodeRecords?, encodeInstruction?, hln, if_pos hcode,
            hget, hpack, Option.map_some', henc']
          simp [List.take_append_drop]

/-- C4, counterexample: a byte string with one trailing byte beyond the
9-byte header promised by its zero instruction count decodes successfully
(the claim calls for a format error), and re-encoding the decoded program
does not reproduce it. -/
theorem C4_counterexample :
    load [83, 84, 75, 77, 1, 0, 0, 0, 0, 171] = .ok [] ∧
    encodeProgram? [] = some [83, 84, 75, 77, 1, 0, 0, 0, 0] ∧
    encodeProgram? ([] : List (String × Option Int)) ≠
      some [83, 84, 75, 77, 1, 0, 0, 0, 0, 171] := by
  decide

/-- C4 (amended): re-encoding a successfully decoded byte string reproduces
it byte-for-byte provided its length is exactly the 9-byte header plus 5
bytes per declared instruction; truncated input is an error (struct.error on
the short read), but bytes extending beyond the declared records are ignored
by the decoder, not rejected. -/
theorem C4_reencode (bs : List Nat) (p : List (String × Option Int))
    (hload : load bs = .ok p)
    (hbytes : ∀ b ∈ bs, b < 256)
    (hlen : bs.length = 9 + 5 * p.length) :
    encodeProgram? p = some bs := by
  unfold load loadWith at hload
  by_cases hm : bs.take 4 ≠ MAGIC
  · rw [if_pos hm] at hload; cases hload
  · push_neg at hm
    rw [if_neg (not_not_intro hm)] at hload
    cases hdrop : bs.drop 4 with
    | nil => rw [hdrop] at hload; cases hload
    | cons ver rest =>
      rw [hdrop] at hload
      dsimp only [ne_eq] at hload
      by_cases hv : ver = VERSION
      · rw [if_neg (not_not_intro hv)] at hload
        have hdl : (bs.drop 4).length = bs.length - 4 := List.length_drop _ _
        have hrl : rest.length = 4 + 5 * p.length := by
          rw [hdrop, List.length_cons] at hdl
          omega
        have h4 : ¬((rest.take 4).length < 4) := by
          simp only [List.length_take]
          omega
        rw [if_neg h4] at hload
        have hcntlen : (rest.take 4).length = 4 := by
          simp only [List.length_take]
          omega
        have hplen : p.length = leNat (rest.take 4) :=
          decodeRecords_length _ _ p hload
        have hrb : ∀ b ∈ rest, b < 256 := by
          intro b hbb
          apply hbytes
          refine List.drop_subset 4 bs ?_
          rw [hdrop]
          exact List.mem_cons_of_mem _ hbb
        have henc : encodeRecords? p = some (rest.drop 4) :=
          decodeRecords_encode _ (rest.drop 4) p hload
            (fun b hbb => hrb b (List.drop_subset _ _ hbb))
            (by simp only [List.length_drop]; omega)
        have hcnt : packU32? p.length = some (rest.take 4) := by
          rw [hplen]
          exact packU32_leNat _ hcntlen
            (fun b hbb => hrb b (List.take_subset _ _ hbb))
        have hbseq : bs = MAGIC ++ [VERSION] ++ rest.take 4 ++ rest.drop 4 := by
          have h1 : bs = bs.take 4 ++ bs.drop 4 := (List.take_append_drop 4 bs).symm
          rw [h1, hm, hdrop, hv]
          simp [List.append_assoc, List.take_append_drop]
        rw [hbseq]
        simp only [encodeProgram?, hcnt, henc]
      · rw [if_pos hv] at hload
        cases hload

/-- C4, witness for the amended theorem at the empty program. -/
theorem C4_witness :
    encodeProgram? ([] : List (String × Option Int)) =
      some [83, 84, 75, 77, 1, 0, 0, 0, 0] :=
  C4_reencode [83, 84, 75, 77, 1, 0, 0, 0, 0] [] (by decide) (by decide)
    (by decide)

/-- C3, counterexample: the program consisting of the single pair
(ADD, operand 0) — a registered opcode with an optional operand, producible
by the assembler from the line `ADD 0` — encodes, but decodes back to
(ADD, no operand): the round trip is not the identity on all programs over
registered opcodes. -/
theorem C3_counterexample :
    encodeProgram? [("ADD", some 0)] =
      some [83, 84, 75, 77, 1, 1, 0, 0, 0, 3, 0, 0, 0, 0] ∧
    load [83, 84, 75, 77, 1, 1, 0, 0, 0, 3, 0, 0, 0, 0] = .ok [("ADD", none)] ∧
    [("ADD", (none : Option Int))] ≠ [("ADD", some 0)] := by
  decide

/-- Decoding inverts record encoding for programs whose operand presence
matches the fixed list PUSH/JUMP/JZ and whose operands fit in 32 bits. -/
theorem encodeRecords_decode (p : List (String × Option Int))
    (hok : ∀ i ∈ p, (lookupName OPCODES i.1).isSome = true)
    (hrange : ∀ i ∈ p, ∀ v : Int, i.2 = some v →
      -2147483648 ≤ v ∧ v < 2147483648)
    (harity : ∀ i ∈ p,
      (i.1 ∈ (["PUSH", "JUMP", "JZ"] : List String) → i.2 ≠ none) ∧
      (i.1 ∉ (["PUSH", "JUMP", "JZ"] : List String) → i.2 ≠ some 0)) :
    ∃ recs, encodeRecords? p = some recs ∧
      decodeRecords OPCODES recs p.length = .ok p := by
  induction p with
  | nil => exact ⟨[], rfl, rfl⟩
  | cons i rest ih =>
    obtain ⟨name, op⟩ := i
    have hokh := hok _ (List.mem_cons_self _ _)
    cases hln : lookupName OPCODES name with
    | none => rw [hln] at hokh; cases hokh
    | some code =>
      have hcode : code < 256 := lookupName_lt_256 hln
      have hv0 : -2147483648 ≤ op.getD 0 ∧ op.getD 0 < 2147483648 := by
        cases op with
        | none => constructor <;> decide
        | some v => simpa using hrange _ (List.mem_cons_self _ _) v rfl
      obtain ⟨ob, hpack, hoblen, hobb, hunpack⟩ :=
        unpackI32_packI32 _ hv0.1 hv0.2
      obtain ⟨recs', henc', hdec'⟩ := ih
        (fun j hj => hok j (List.mem_cons_of_mem _ hj))
        (fun j hj => hrange j (List.mem_cons_of_mem _ hj))
        (fun j hj => harity j (List.mem_cons_of_mem _ hj))
      refine ⟨(code :: ob) ++ recs', ?_, ?_⟩
      · simp only [encodeRecords?, encodeInstruction?, hln, if_pos hcode,
          hpack, Option.map_some', henc']
      · have htake : (ob ++ recs').take 4 = ob := by
          rw [← hoblen]
          exact List.take_left _ _
        have hdrop4 : (ob ++ recs').drop 4 = recs' := by
          rw [← hoblen]
          exact List.drop_left _ _
        have hdo : decodeOperand name (op.getD 0) = op := by
          have har := harity _ (List.mem_cons_self _ _)
          cases op with
          | none =>
            have hnin : name ∉ (["PUSH", "JUMP", "JZ"] : List String) :=
              fun hin => (har.1 hin) rfl
            simp [decodeOperand, hnin]
          | some v =>
            by_cases hz : v = 0
            · subst hz
              have hin : name ∈ (["PUSH", "JUMP", "JZ"] : List String) := by
                by_contra hnin
                exact (har.2 hnin) rfl
              simp [decodeOperand, hin]
            · simp [decodeOperand, hz]
        show decodeRecords OPCODES (code :: (ob ++ recs'))
          (rest.length + 1) = .ok ((name, op) :: rest)
        simp only [decodeRecords]
        have h4 : ¬(((ob ++ recs').take 4).length < 4) := by
          rw [htake, hoblen]
          omega
        rw [if_neg h4, htake, hunpack, OPCODES_lookup_inverse hln, hdrop4]
        simp only [hdec', hdo]

/-- C3 (amended): decode(encode(P)) = P for every program over registered
opcodes with 32-bit operands in which PUSH/JUMP/JZ instructions carry an
operand and no other instruction carries the operand value 0; the two
excluded shapes — a bare PUSH/JUMP/JZ, and a 0 operand on any other
opcode — do not survive the trip (the counterexample shows the latter). -/
theorem C3_roundtrip (p : List (String × Option Int))
    (hlen : p.length < 4294967296)
    (hok : ∀ i ∈ p, (lookupName OPCODES i.1).isSome = true)
    (hrange : ∀ i ∈ p, ∀ v : Int, i.2 = some v →
      -2147483648 ≤ v ∧ v < 2147483648)
    (harity : ∀ i ∈ p,
      (i.1 ∈ (["PUSH", "JUMP", "JZ"] : List String) → i.2 ≠ none) ∧
      (i.1 ∉ (["PUSH", "JUMP", "JZ"] : List String) → i.2 ≠ some 0)) :
    ∃ bs, encodeProgram? p = some bs ∧ load bs = .ok p := by
  obtain ⟨recs, henc, hdec⟩ := encodeRecords_decode p hok hrange harity
  refine ⟨MAGIC ++ [VERSION] ++ u32bytes p.length ++ recs, ?_, ?_⟩
  · simp only [encodeProgram?, packU32?, if_pos hlen, henc]
  · unfold load loadWith
    have hshape : MAGIC ++ [VERSION] ++ u32bytes p.length ++ recs =
        83 :: 84 :: 75 :: 77 :: 1 :: (u32bytes p.length ++ recs) := by
      simp [MAGIC, VERSION, List.append_assoc]
    rw [hshape]
    simp only [List.take, List.drop]
    rw [if_neg (by decide), if_neg (by decide)]
    rw [if_neg (by simp)]
    show decodeRecords OPCODES recs (leNat (u32bytes p.length)) = .ok p
    rw [leNat_u32bytes _ hlen]
    exact hdec

/-- C3, witness for the amended theorem: PUSH with stored operand 0 and a
bare ADD round-trip. -/
theorem C3_witness :
    ∃ bs, encodeProgram? [("PUSH", some 0), ("ADD", none)] = some bs ∧
      load bs = .ok [("PUSH", some 0), ("ADD", none)] :=
  C3_roundtrip [("PUSH", some 0), ("ADD", none)] (by decide) (by decide)
    (by decide) (by decide)

/-- The machine state after executing `PUSH 1; HALT` from a fresh machine
(used by C9). -/
def c9State : MachineSt :=
  ⟨[some 1], [("PUSH", some 1), ("HALT", none)], 1, false, 2, 2, []⟩

/-- C9, counterexample: after a completed run, loading a new program resets pc
but leaves the instruction counter at its old value 2 — load_program does not
clear the execution counters, contrary to the claim. -/
theorem C9_counterexample :
    runFor 2 (initExecute (loadProgram newMachine
        [("PUSH", some 1), ("HALT", none)])) = .stepped c9State ∧
    (loadProgram c9State [("HALT", none)]).pc = 0 ∧
    (loadProgram c9State [("HALT", none)]).instructionCount = 2 ∧
    (loadProgram c9State [("HALT", none)]).instructionCount ≠ 0 := by
  decide

/-- C9 (amended): load_program stores the program and resets pc to 0 but
leaves the execution counters (and the stack and running flag) untouched;
the counters are cleared, and pc reset again, at the start of execute(). -/
theorem C9_load_semantics (s : MachineSt) (p : List (String × Option Int)) :
    (loadProgram s p).pc = 0 ∧
    (loadProgram s p).program = p ∧
    (loadProgram s p).instructionCount = s.instructionCount ∧
    (loadProgram s p).cycleCount = s.cycleCount ∧
    (loadProgram s p).stack = s.stack ∧
    (loadProgram s p).running = s.running ∧
    (initExecute s).pc = 0 ∧
    (initExecute s).instructionCount = 0 ∧
    (initExecute s).cycleCount = 0 ∧
    (initExecute s).running = true :=
  ⟨rfl, rfl, rfl, rfl, rfl, rfl, rfl, rfl, rfl, rfl⟩

/-- C6, counterexample: MOD already occupies numeric code 0x10, yet a second
extension registering under a fresh name with the same code 0x10 is accepted:
code conflicts are only checked against the base opcodes, not against
already-registered extensions. -/
theorem C6_counterexample :
    theRegistry.opcodes.any (fun b => b.2 == 16) = true ∧
    (loadExtensionFile theRegistry ⟨"EXT2", 16, false⟩).2 = true ∧
    (loadExtensionFile theRegistry ⟨"EXT2", 16, false⟩).1.opcodes =
      OPCODES ++ [("EXT2", 16)] := by
  decide

/-- C6 (amended): registration is rejected, leaving the registry unchanged,
exactly when the name exists (base or previously registered extension) or the
code collides with a base code; a code colliding only with an
already-registered extension code is accepted.  An attempt under the name
PUSH or code 0x01 is rejected and the base opcode stays registered. -/
theorem C6_registration (r : OpcodeRegistry) (e : Extension) :
    loadExtensionFile r e =
      (if (BASE_OPCODES.any (fun b => b.1 == e.name) ||
           r.opcodes.any (fun b => b.1 == e.name) ||
           BASE_OPCODES.any (fun b => b.2 == e.value))
       then (r, false)
       else ({ opcodes := r.opcodes ++ [(e.name, e.value)],
               extensions := r.extensions ++ [e] }, true)) ∧
    loadExtensionFile theRegistry ⟨"PUSH", 80, false⟩ = (theRegistry, false) ∧
    loadExtensionFile theRegistry ⟨"NEWOP", 1, false⟩ = (theRegistry, false) ∧
    lookupName theRegistry.opcodes "PUSH" = some 1 := by
  refine ⟨?_, by decide, by decide, by decide⟩
  unfold loadExtensionFile
  cases h1 : BASE_OPCODES.any (fun b => b.1 == e.name) <;>
    cases h2 : r.opcodes.any (fun b => b.1 == e.name) <;>
      cases h3 : BASE_OPCODES.any (fun b => b.2 == e.value) <;>
        simp [h1, h2, h3]

/-- The shipped registry extended with a hypothetical operand-bearing
extension INC at code 0x20 (accepted by the conflict checks). -/
def incRegistry : OpcodeRegistry :=
  (loadExtensionFile theRegistry ⟨"INC", 32, true⟩).1

/-- C5, counterexample: INC is a registerable operand-bearing extension, yet
a decoded record with opcode INC and stored operand 0 reconstructs the
operand as absent — Runtime.load consults the fixed list PUSH/JUMP/JZ, not
the registry operand-bearing flag, so a stored 0 on an operand-bearing
extension does not survive decoding as the value 0. -/
theorem C5_counterexample :
    (loadExtensionFile theRegistry ⟨"INC", 32, true⟩).2 = true ∧
    incRegistry.hasOperand "INC" = true ∧
    loadWith incRegistry.opcodes
      [83, 84, 75, 77, 1, 1, 0, 0, 0, 32, 0, 0, 0, 0] = .ok [("INC", none)] ∧
    specOperandRule incRegistry "INC" 0 = some 0 ∧
    decodeOperand "INC" 0 = none := by
  decide

/-- C5 (amended): the decoder reconstructs the operand from the fixed list
PUSH/JUMP/JZ; this coincides with the registry operand-bearing flag whenever
no registered extension is operand-bearing (which holds for all shipped
extensions), but a stored 0 on an operand-bearing extension decodes as
absent. -/
theorem C5_operand_rule (r : OpcodeRegistry) (name : String) (v : Int)
    (hnoop : ∀ e ∈ r.extensions, e.hasOperand = false)
    (hclean : ∀ e ∈ r.extensions,
      e.name ∉ (["PUSH", "JUMP", "JZ"] : List String)) :
    decodeOperand name v = specOperandRule r name v := by
  have hcond : OpcodeRegistry.hasOperand r name = false ↔
      name ∉ (["PUSH", "JUMP", "JZ"] : List String) := by
    unfold OpcodeRegistry.hasOperand
    cases hf : r.extensions.find? (fun e => e.name == name) with
    | some e =>
      have hmem : e ∈ r.extensions := List.mem_of_find?_eq_some hf
      have hkey := List.find?_some hf
      have hname : e.name = name := by simpa using hkey
      have hnin : name ∉ (["PUSH", "JUMP", "JZ"] : List String) :=
        hname ▸ hclean e hmem
      simp [hnoop e hmem, hnin]
    | none =>
      simp only [List.mem_cons, List.not_mem_nil, or_false, not_or,
        Bool.or_eq_false_iff, beq_eq_false_iff_ne, ne_eq]
      tauto
  unfold decodeOperand specOperandRule
  rw [if_congr (and_congr_right fun _ => hcond.symm) rfl rfl]

/-- C5, witness for the amended theorem at the shipped registry. -/
theorem C5_witness :
    decodeOperand "MOD" 0 = specOperandRule theRegistry "MOD" 0 :=
  C5_operand_rule theRegistry "MOD" 0 (by decide) (by decide)

/-- The machine state one loop iteration after starting
`JUMP -1; HALT` (used by C2). -/
def c2State : MachineSt :=
  ⟨[], [("JUMP", some (-1)), ("HALT", none)], -1, true, 1, 2, []⟩

/-- The machine state two loop iterations after starting
`JUMP -1; HALT` (used by C2). -/
def c2Final : MachineSt :=
  ⟨[], [("JUMP", some (-1)), ("HALT", none)], -1, false, 2, 3, []⟩

/-- C2, counterexample: after `JUMP -1` the loop is at pc = -1, outside
[0, len), yet execution does not stop: the next iteration fetches the
instruction at Python index -1 (the last instruction, HALT) and executes it,
raising the instruction count from 1 to 2. -/
theorem C2_counterexample :
    runFor 1 (initExecute (loadProgram newMachine
        [("JUMP", some (-1)), ("HALT", none)])) = .stepped c2State ∧
    c2State.pc = -1 ∧ c2State.running = true ∧
    step c2State = .stepped c2Final ∧
    c2Final.instructionCount = 2 := by
  decide

/-- C2 (amended): with the machine running, the loop stops (normal
termination) exactly when pc is at or beyond the program length — a negative
pc does not stop the loop; when pc is so negative that even Python's
negative indexing is out of range, the iteration raises IndexError instead
of terminating normally. -/
theorem C2_stop_iff (s : MachineSt) (h : s.running = true) :
    (step s = .stopped s ↔ (s.program.length : Int) ≤ s.pc) ∧
    (s.pc + (s.program.length : Int) < 0 →
      step s = .crashed s .indexError) := by
  by_cases hc : (s.program.length : Int) ≤ s.pc
  · have hstop : step s = .stopped s := by
      unfold step
      rw [if_pos (Or.inr hc)]
    have hlen : (0 : Int) ≤ (s.program.length : Int) := Int.natCast_nonneg _
    exact ⟨⟨fun _ => hc, fun _ => hstop⟩, fun hneg => by omega⟩
  · have hcond : ¬(s.running = false ∨ (s.program.length : Int) ≤ s.pc) := by
      rintro (hf | hle)
      · rw [h] at hf; exact Bool.noConfusion hf
      · exact hc hle
    constructor
    · constructor
      · intro hstop
        exfalso
        unfold step at hstop
        rw [if_neg hcond] at hstop
        cases hpi : pyIndex s.program s.pc with
        | none => rw [hpi] at hstop; exact StepResult.noConfusion hstop
        | some io =>
          obtain ⟨op, arg⟩ := io
          rw [hpi] at hstop
          cases herr : (executeInstruction s op arg).err with
          | some e => simp [herr] at hstop
          | none => simp [herr] at hstop
      · intro hle
        exact absurd hle hc
    · intro hneg
      have hneg' : s.pc < 0 := by omega
      have hpi : pyIndex s.program s.pc = none := by
        simp only [pyIndex]
        rw [if_pos hneg', if_neg (by omega)]
      unfold step
      rw [if_neg hcond, hpi]

/-- Every instruction branch other than JUMP, JZ and HALT leaves pc and the
running flag untouched, whether it succeeds or raises. -/
theorem exec_preserves (s : MachineSt) (opcode : String) (operand : Option Int)
    (h1 : opcode ≠ "JUMP") (h2 : opcode ≠ "JZ") (h3 : opcode ≠ "HALT") :
    (executeInstruction s opcode operand).st.pc = s.pc ∧
    (executeInstruction s opcode operand).st.running = s.running := by
  obtain ⟨stk, prog, pc, run, ic, cc, out⟩ := s
  by_cases hP : opcode = "PUSH"
  · subst hP; exact ⟨rfl, rfl⟩
  by_cases hPo : opcode = "POP"
  · subst hPo
    rcases stk with _ | ⟨v, t⟩ <;> exact ⟨rfl, rfl⟩
  by_cases hA : opcode = "ADD"
  · subst hA
    rcases stk with _ | ⟨_ | x, _ | ⟨_ | y, t⟩⟩ <;> exact ⟨rfl, rfl⟩
  by_cases hS : opcode = "SUB"
  · subst hS
    rcases stk with _ | ⟨_ | x, _ | ⟨_ | y, t⟩⟩ <;> exact ⟨rfl, rfl⟩
  by_cases hM : opcode = "MUL"
  · subst hM
    rcases stk with _ | ⟨_ | x, _ | ⟨_ | y, t⟩⟩ <;> exact ⟨rfl, rfl⟩
  by_cases hD : opcode = "DIV"
  · subst hD
    rcases stk with _ | ⟨_ | x, _ | ⟨_ | y, t⟩⟩ <;>
      first
        | exact ⟨rfl, rfl⟩
        | (rcases eq_or_ne x 0 with rfl | hx
           · exact ⟨rfl, rfl⟩
           · constructor <;> simp [executeInstruction, hx])
  by_cases hDu : opcode = "DUP"
  · subst hDu
    rcases stk with _ | ⟨v, t⟩ <;> exact ⟨rfl, rfl⟩
  by_cases hSw : opcode = "SWAP"
  · subst hSw
    rcases stk with _ | ⟨v, _ | ⟨w, t⟩⟩ <;> exact ⟨rfl, rfl⟩
  by_cases hPr : opcode = "PRINT"
  · subst hPr
    rcases stk with _ | ⟨v, t⟩ <;> exact ⟨rfl, rfl⟩
  by_cases hMo : opcode = "MOD"
  · subst hMo
    rcases stk with _ | ⟨_ | x, _ | ⟨_ | y, t⟩⟩ <;>
      first
        | exact ⟨rfl, rfl⟩
        | (rcases eq_or_ne x 0 with rfl | hx
           · exact ⟨rfl, rfl⟩
           · constructor <;> simp [executeInstruction, hx])
  by_cases hN : opcode = "NEG"
  · subst hN
    rcases stk with _ | ⟨_ | x, t⟩ <;> exact ⟨rfl, rfl⟩
  by_cases hE : opcode = "EQ"
  · subst hE
    rcases stk with _ | ⟨v, _ | ⟨w, t⟩⟩ <;> exact ⟨rfl, rfl⟩
  by_cases hNe : opcode = "NEQ"
  · subst hNe
    rcases stk with _ | ⟨v, _ | ⟨w, t⟩⟩ <;> exact ⟨rfl, rfl⟩
  by_cases hL : opcode = "LT"
  · subst hL
    rcases stk with _ | ⟨_ | x, _ | ⟨_ | y, t⟩⟩ <;> exact ⟨rfl, rfl⟩
  by_cases hLe : opcode = "LTE"
  · subst hLe
    rcases stk with _ | ⟨_ | x, _ | ⟨_ | y, t⟩⟩ <;> exact ⟨rfl, rfl⟩
  by_cases hG : opcode = "GT"
  · subst hG
    rcases stk with _ | ⟨_ | x, _ | ⟨_ | y, t⟩⟩ <;> exact ⟨rfl, rfl⟩
  by_cases hGe : opcode = "GTE"
  · subst hGe
    rcases stk with _ | ⟨_ | x, _ | ⟨_ | y, t⟩⟩ <;> exact ⟨rfl, rfl⟩
  by_cases hDe : opcode = "DEPTH"
  · subst hDe; exact ⟨rfl, rfl⟩
  by_cases hO : opcode = "OVER"
  · subst hO
    rcases stk with _ | ⟨v, _ | ⟨w, t⟩⟩ <;> exact ⟨rfl, rfl⟩
  by_cases hPe : opcode = "PEEK"
  · subst hPe
    rcases stk with _ | ⟨v, t⟩ <;> exact ⟨rfl, rfl⟩
  by_cases hR : opcode = "ROT"
  · subst hR
    rcases stk with _ | ⟨v, _ | ⟨w, _ | ⟨u, t⟩⟩⟩ <;> exact ⟨rfl, rfl⟩
  unfold executeInstruction
  dsimp only
  rw [if_neg hP, if_neg hPo, if_neg hA, if_neg hS, if_neg hM, if_neg hD,
    if_neg hDu, if_neg hSw, if_neg hPr, if_neg h1, if_neg h2, if_neg h3,
    if_neg hMo, if_neg hN, if_neg hE, if_neg hNe, if_neg hL, if_neg hLe,
    if_neg hG, if_neg hGe, if_neg hDe, if_neg hO, if_neg hPe, if_neg hR]
  exact ⟨rfl, rfl⟩

/-- C1: on a dispatched instruction that executes without raising, JUMP with
operand t (and JZ with operand t when the popped top of stack is 0) makes t
the pc for the next fetch — the stored t-1 and the loop post-increment
cancel, with no extra increment on top of the target; HALT leaves pc in
place with the machine stopped; every other instruction advances pc by
exactly 1. -/
theorem C1_taken_jumps (s : MachineSt) (opcode : String) (operand : Option Int)
    (hr : s.running = true)
    (hpc : s.pc < (s.program.length : Int))
    (hfetch : pyIndex s.program s.pc = some (opcode, operand))
    (hok : (executeInstruction s opcode operand).err = none) :
    stepPc (step s) =
      some (if opcode = "JUMP" then operand.getD 0
            else if opcode = "JZ" ∧ s.stack.headD none = some 0 then
              operand.getD 0
            else if opcode = "HALT" then s.pc
            else s.pc + 1) := by
  obtain ⟨stk, prog, pc, run, ic, cc, out⟩ := s
  simp only at hr hpc hfetch hok ⊢
  subst hr
  have hcond : ¬((true : Bool) = false ∨ (prog.length : Int) ≤ pc) := by
    rintro (hf | hle)
    · exact Bool.noConfusion hf
    · omega
  unfold step
  rw [if_neg hcond, hfetch]
  dsimp only
  by_cases hJ : opcode = "JUMP"
  · subst hJ
    cases operand with
    | none =>
      rw [show (executeInstruction ⟨stk, prog, pc, true, ic, cc, out⟩
        "JUMP" none).err = some PyErr.typeError from rfl] at hok
      cases hok
    | some tgt =>
      rw [show executeInstruction ⟨stk, prog, pc, true, ic, cc, out⟩
        "JUMP" (some tgt) =
        ⟨⟨stk, prog, tgt - 1, true, ic + 1, cc + 2, out⟩, none⟩ from rfl]
      simp only [stepPc, Option.some.injEq, if_pos rfl]
      norm_num
  · by_cases hZ : opcode = "JZ"
    · subst hZ
      cases stk with
      | nil =>
        rw [show (executeInstruction ⟨[], prog, pc, true, ic, cc, out⟩
          "JZ" operand).err = some PyErr.indexError from rfl] at hok
        cases hok
      | cons v rest =>
        by_cases hv : v = some 0
        · subst hv
          cases operand with
          | none =>
            rw [show (executeInstruction ⟨some 0 :: rest, prog, pc, true,
              ic, cc, out⟩ "JZ" none).err = some PyErr.typeError from rfl] at hok
            cases hok
          | some tgt =>
            rw [show executeInstruction ⟨some 0 :: rest, prog, pc, true,
              ic, cc, out⟩ "JZ" (some tgt) =
              ⟨⟨rest, prog, tgt - 1, true, ic + 1, cc + 2, out⟩, none⟩ from rfl]
            simp [stepPc, sub_add_cancel]
        · have hexec : executeInstruction ⟨v :: rest, prog, pc, true,
              ic, cc, out⟩ "JZ" operand =
              ⟨⟨rest, prog, pc, true, ic + 1,
                cc + getInstructionCost "JZ", out⟩, none⟩ := by
            simp [executeInstruction, hv]
          rw [hexec]
          simp [stepPc, hv]
    · by_cases hH : opcode = "HALT"
      · subst hH
        rw [show executeInstruction ⟨stk, prog, pc, true, ic, cc, out⟩
          "HALT" operand =
          ⟨⟨stk, prog, pc, false, ic + 1, cc + 1, out⟩, none⟩ from rfl]
        simp [stepPc]
      · have hpres := exec_preserves ⟨stk, prog, pc, true, ic, cc, out⟩
          opcode operand hJ hZ hH
        cases hexec : executeInstruction ⟨stk, prog, pc, true, ic, cc, out⟩
            opcode operand with
        | mk st' err =>
          rw [hexec] at hok hpres
          simp only at hok hpres
          subst hok
          simp only [stepPc, hpres.2]
          simp [hJ, hH, hpres.1]
          rw [if_neg (show ¬(opcode = "JZ" ∧ stk.head?.getD none = some 0)
            from fun hh => hZ hh.1)]

/-- C1, witness at a one-instruction program whose JUMP lands on address 0. -/
theorem C1_witness :
    stepPc (step ⟨[], [("JUMP", some 0)], 0, true, 0, 0, []⟩) =
      some (if ("JUMP" : String) = "JUMP" then (some (0 : Int)).getD 0
            else if ("JUMP" : String) = "JZ" ∧
                ([] : List (Option Int)).headD none = some 0 then
              (some (0 : Int)).getD 0
            else if ("JUMP" : String) = "HALT" then 0
            else 0 + 1) :=
  C1_taken_jumps ⟨[], [("JUMP", some 0)], 0, true, 0, 0, []⟩ "JUMP" (some 0)
    rfl (by decide) rfl rfl

/-- C7: DIV pops the divisor b (top) then the dividend a; with b nonzero it
pushes the floor quotient `Int.fdiv a b` (Python a // b), with b zero it
raises ZeroDivisionError, both operands consumed and no result pushed; the
counters advance by 1 instruction and 10 cycles either way. -/
theorem C7_div (s : MachineSt) (arg : Option Int) (b a : Int)
    (t : List (Option Int)) (hstack : s.stack = some b :: some a :: t) :
    executeInstruction s "DIV" arg =
      (if b = 0 then
        ⟨{ s with stack := t,
                  instructionCount := s.instructionCount + 1,
                  cycleCount := s.cycleCount + 10 }, some .zeroDivisionError⟩
       else
        ⟨{ s with stack := some (Int.fdiv a b) :: t,
                  instructionCount := s.instructionCount + 1,
                  cycleCount := s.cycleCount + 10 }, none⟩) := by
  obtain ⟨stk, prog, pc, run, ic, cc, out⟩ := s
  simp only at hstack
  subst hstack
  simp only [executeInstruction, getInstructionCost, lookupName,
    INSTRUCTION_COSTS]
  norm_num
  split_ifs with h1 h2 <;> simp_all

/-- C7, witness: 14 divided by 4 on the stack leaves 3. -/
theorem C7_witness :
    executeInstruction ⟨[some 4, some 14], [], 0, true, 0, 0, []⟩ "DIV" none =
      ⟨⟨[some 3], [], 0, true, 1, 10, []⟩, none⟩ := by
  have h := C7_div ⟨[some 4, some 14], [], 0, true, 0, 0, []⟩ none 4 14 [] rfl
  rw [if_neg (by norm_num)] at h
  exact h

/-- C8: a line ending in a colon declares its name at the current emission
address without consuming an address, failing with the duplicate-label error
when the name is already declared and with the empty-label error when it is
blank; a forward reference `JUMP END ... END: HALT` assembles with the JUMP
operand equal to the address of END (2), and a reference to an undeclared
label fails with the undefined-label error. -/
theorem C8_labels (st : Pass1St) (ln : Nat) (name : String) (hne : name ≠ "") :
    (declareLabel st ln name =
      (if st.labels.any (fun e => e.1 == name) then
        .error (.duplicateLabel ln name)
       else
        .ok { st with labels := st.labels ++ [(name, st.address)],
                      rawLines := st.rawLines ++ [⟨ln, .label name⟩] })) ∧
    declareLabel st ln "" = .error (.emptyLabelName ln) ∧
    parseFile ["JUMP END", "PUSH 1", "END:", "HALT"] =
      .ok [("JUMP", some 2), ("PUSH", some 1), ("HALT", none)] ∧
    parseFile ["X:", "X:", "HALT"] = .error (.duplicateLabel 2 "X") ∧
    parseFile ["JUMP NOWHERE", "HALT"] = .error (.undefinedLabel 1 "NOWHERE") := by
  refine ⟨?_, by simp [declareLabel], by decide, by decide, by decide⟩
  unfold declareLabel
  rw [if_neg hne]

/-- C8, witness: declaring a fresh label binds it to the current address and
leaves the address unchanged. -/
theorem C8_witness :
    declareLabel ⟨[], [], 0⟩ 3 "END" =
      .ok ⟨[("END", 0)], [⟨3, RawKind.label "END"⟩], 0⟩ := by
  have h := (C8_labels ⟨[], [], 0⟩ 3 "END" (by decide)).1
  simpa using h

/-- C10: any registered mnemonic assembles regardless of operand arity — a
bare operand-bearing opcode parses with an absent operand (encoded as 0) and
a non-operand-bearing opcode with an integer token keeps the operand, which
is encoded in the bytecode. -/
theorem C10_lenient_arity (p : String × Nat) (hp : p ∈ OPCODES) :
    parseFile [p.1] = .ok [(p.1, none)] ∧
    parseFile [p.1 ++ " 7"] = .ok [(p.1, some 7)] ∧
    parseFile ["PUSH", "ADD 7"] = .ok [("PUSH", none), ("ADD", some 7)] ∧
    encodeProgram? [("PUSH", none), ("ADD", some 7)] =
      some [83, 84, 75, 77, 1, 2, 0, 0, 0, 1, 0, 0, 0, 0, 3, 7, 0, 0, 0] := by
  rw [OPCODES_eq] at hp
  fin_cases hp <;> decide

/-- C10, witness at the examples from the claim: a bare PUSH and ADD 7. -/
theorem C10_witness :
    parseFile ["PUSH"] = .ok [("PUSH", none)] ∧
    parseFile ["PUSH 7"] = .ok [("PUSH", some 7)] ∧
    parseFile ["PUSH", "ADD 7"] = .ok [("PUSH", none), ("ADD", some 7)] ∧
    encodeProgram? [("PUSH", none), ("ADD", some 7)] =
      some [83, 84, 75, 77, 1, 2, 0, 0, 0, 1, 0, 0, 0, 0, 3, 7, 0, 0, 0] :=
  C10_lenient_arity ("PUSH", 1) (by decide)

/-- C2, witness for the amended theorem at the concrete post-jump state. -/
theorem C2_witness :
    (step c2State = .stopped c2State ↔
      ((c2State.program.length : Int) ≤ c2State.pc)) ∧
    (c2State.pc + (c2State.program.length : Int) < 0 →
      step c2State = .crashed c2State .indexError) :=
  C2_stop_iff c2State rfl

end StackMac
